import Mathlib

/-!
Verification of the ai-scrapbook content retrieval pipeline.

This file gives a shallow embedding of the pure logic of the
retrieval engine (`search.service.ts`), the answer synthesizer's
citation mapping (`openai.provider.ts` / `anthropic.provider.ts`),
the document text extractor (`document-parser.service.ts`), the
summarize orchestrator's social-source dispatch
(`summarize.service.ts`), the asset classifier (`asset.service.ts`)
and the ask excerpt truncation (`ask.service.ts`), and proves the
specified properties about these definitions.

External capabilities (storage repositories, embedding index,
language model, HTTP fetch, JSON parsing, `path.extname`) are
modelled as explicit parameters: each definition receives the
outcome of the external call it makes, and fallible calls are
`Except` values.
-/

namespace AIScrapbook

/-! ## Data model: content items and search results (`types/api.ts`) -/

/-- A stored content item as returned by the content repository.
`similarity` scores never undergo arithmetic in the core, so the score
type is modelled as `Int`. -/
structure ContentItem where
  id : String
  title : String
  description : String
  contentType : String
  tags : List String
  sourceUrl : Option String
  createdAt : String
deriving DecidableEq, Repr

/-- A search result row (`SearchResult` in `types/api.ts`); `score` is
present only on semantic results. -/
structure SearchResult where
  id : String
  title : String
  description : String
  contentType : String
  tags : List String
  sourceUrl : Option String
  createdAt : String
  score : Option Int
deriving DecidableEq, Repr

/-- One row returned by the embedding index
(`EmbeddingRepository.searchSimilar`). -/
structure SimilarItem where
  id : String
  similarity : Int
deriving DecidableEq, Repr

/-- `SearchService.itemToSearchResult`: copy the item fields, no score. -/
def itemToSearchResult (item : ContentItem) : SearchResult :=
  { id := item.id
    title := item.title
    description := item.description
    contentType := item.contentType
    tags := item.tags
    sourceUrl := item.sourceUrl
    createdAt := item.createdAt
    score := none }

/-- Attach a similarity score to a mapped result (the
`{ ...itemToSearchResult(item), score: sim.similarity }` spread). -/
def withScore (r : SearchResult) (s : Int) : SearchResult :=
  { r with score := some s }

/-- Lookup in the JS `Map` built by
`new Map(items.map((item) => [item.id, item]))`: a later entry with the
same key overwrites an earlier one, so `get` returns the last matching
element. -/
def lookupById (items : List ContentItem) (id : String) : Option ContentItem :=
  items.reverse.find? (fun item => decide (item.id = id))

/-- The result-assembly loop of `SearchService.semanticSearch`: walk the
similarity-ranked candidate list, keep candidates whose item was fetched,
attach each candidate's similarity score. -/
def semanticSearchAssemble (similarItems : List SimilarItem)
    (items : List ContentItem) : List SearchResult :=
  similarItems.foldl
    (fun results sim =>
      match lookupById items sim.id with
      | some item => results ++ [withScore (itemToSearchResult item) sim.similarity]
      | none => results)
    []

/-- `SearchService.semanticSearch` after the embedding and index calls:
given the index output and the repository's batched `findByIds`
capability, short-circuit on zero candidates, otherwise batch-fetch the
candidate IDs and assemble. -/
def semanticSearch (similarItems : List SimilarItem)
    (findByIds : List String → List ContentItem) : List SearchResult :=
  if similarItems.isEmpty then []
  else semanticSearchAssemble similarItems (findByIds (similarItems.map (fun s => s.id)))

/-- One iteration of the merge loops in `SearchService.hybridSearch`:
state is the `seen` ID set (insertion order kept) and the `merged` list. -/
def mergeStep (st : List String × List SearchResult) (r : SearchResult) :
    List String × List SearchResult :=
  if st.1.any (fun t => decide (t = r.id)) then st
  else (st.1 ++ [r.id], st.2 ++ [r])

/-- The merge of `SearchService.hybridSearch`: semantic results first,
then keyword results not already seen, truncated to `limit`. -/
def hybridMerge (semanticResults keywordResults : List SearchResult)
    (limit : Nat) : List SearchResult :=
  let afterSemantic := semanticResults.foldl mergeStep ([], [])
  let afterKeyword := keywordResults.foldl mergeStep afterSemantic
  afterKeyword.2.take limit

/-- `SearchService.hybridSearch` over the two branch outcomes: the
semantic branch carries `.catch(() => [])`, so its failure degrades to
the empty list, while a keyword-branch failure rejects the joined
`Promise.all` and propagates. -/
def hybridSearch (keywordOutcome semanticOutcome : Except String (List SearchResult))
    (limit : Nat) : Except String (List SearchResult) :=
  match keywordOutcome with
  | .error e => .error e
  | .ok keywordResults =>
      let semanticResults :=
        match semanticOutcome with
        | .ok rs => rs
        | .error _ => []
      .ok (hybridMerge semanticResults keywordResults limit)

/-- Specification-side dedup against an initial `seen` set, used to
characterize the imperative merge loop. -/
def dedupAgainst (seen : List String) : List SearchResult → List SearchResult
  | [] => []
  | r :: rs =>
    if seen.any (fun t => decide (t = r.id)) then dedupAgainst seen rs
    else r :: dedupAgainst (seen ++ [r.id]) rs

/-! ## Answer synthesizer citation mapping
(`OpenAIProvider.generateAnswer` / `AnthropicProvider.generateAnswer`) -/

/-- A source handed to `generateAnswer` (`SourceContext` in `types/ai.ts`). -/
structure AnswerSource where
  id : String
  title : String
  sourceUrl : Option String
  excerpt : String
deriving DecidableEq, Repr

/-- The character class matched by the regex `\d`. -/
def isAsciiDigit (c : Char) : Bool :=
  decide ('0' ≤ c) && decide (c ≤ '9')

/-- `parseInt(digits, 10)` on a non-empty ASCII digit string. -/
def digitsVal (ds : List Char) : Nat :=
  ds.foldl (fun acc c => 10 * acc + (c.toNat - 48)) 0

/-- The loop body of `scanCitations`, structurally recursive on a fuel
bound: every step consumes at least one character, so `l.length` fuel is
always enough. -/
def scanCitationsAux : Nat → List Char → List Nat
  | 0, _ => []
  | _, [] => []
  | fuel + 1, c :: rest =>
    if c = '[' then
      let ds := rest.takeWhile isAsciiDigit
      if ds.length > 0 && ((rest.drop ds.length).head? == some ']') then
        digitsVal ds :: scanCitationsAux fuel (rest.drop (ds.length + 1))
      else scanCitationsAux fuel rest
    else scanCitationsAux fuel rest

/-- The repeated `exec` loop of the regex `\[(\d+)\]` over the answer
text: scan left to right; at a bracket try a maximal digit run followed
by a closing bracket; on a match record the parsed number and resume
after the closing bracket, otherwise advance one character. -/
def scanCitations (l : List Char) : List Nat :=
  scanCitationsAux l.length l

/-- `Set.add`: a JS `Set` keeps insertion order and ignores re-insertion
of a present value. -/
def insertIfNew (acc : List Nat) (n : Nat) : List Nat :=
  if acc.any (fun m => decide (m = n)) then acc else acc ++ [n]

/-- The `citedNumbers` set of `generateAnswer`, as the list produced by
`Array.from` in insertion order. -/
def citedNumbers (answer : List Char) : List Nat :=
  (scanCitations answer).foldl insertIfNew []

/-- The `sourcesUsed` computation of `generateAnswer`: keep the cited
numbers within `[1, sources.length]` and map each to `sources[n-1].id`. -/
def sourcesUsed (answer : List Char) (sources : List AnswerSource) : List String :=
  (((citedNumbers answer).filter
      (fun n => decide (1 ≤ n) && decide (n ≤ sources.length))).filterMap
    (fun n => (sources[n - 1]?).map (fun s => s.id)))

/-- Specification-side first-occurrence dedup, used to characterize the
insertion-ordered set. -/
def dedupKeepFirst : List Nat → List Nat
  | [] => []
  | n :: ns => n :: dedupKeepFirst (ns.filter (fun m => decide (m ≠ n)))
termination_by l => l.length
decreasing_by
  simp only [List.length_cons]
  exact Nat.lt_succ_of_le (List.length_filter_le _ _)

/-! ## Document text extractor (`document-parser.service.ts`) -/

/-- The character class of the JS regex `\s` (also the class trimmed by
`String.prototype.trim`). -/
def isJsWhitespace (c : Char) : Bool :=
  let n := c.toNat
  n = 9 || n = 10 || n = 11 || n = 12 || n = 13 || n = 32 ||
  n = 0xa0 || n = 0x1680 || (decide (0x2000 ≤ n) && decide (n ≤ 0x200a)) ||
  n = 0x2028 || n = 0x2029 || n = 0x202f || n = 0x205f || n = 0x3000 || n = 0xfeff

/-- `value.replace(/\s+/g, ' ')`: every maximal whitespace run becomes a
single space. -/
def collapseWhitespace : List Char → List Char
  | [] => []
  | c :: cs =>
    if isJsWhitespace c then ' ' :: collapseWhitespace (cs.dropWhile isJsWhitespace)
    else c :: collapseWhitespace cs
termination_by l => l.length
decreasing_by
  all_goals simp only [List.length_cons]
  · exact Nat.lt_succ_of_le ((List.dropWhile_suffix _).sublist.length_le)
  · exact Nat.lt_succ_self _

/-- `String.prototype.trim`. -/
def jsTrim (l : List Char) : List Char :=
  ((l.dropWhile isJsWhitespace).reverse.dropWhile isJsWhitespace).reverse

/-- `normalizeText` from `document-parser.service.ts`. -/
def normalizeText (value : List Char) : List Char :=
  jsTrim (collapseWhitespace value)

/-- The `MAX_EXTRACTED_TEXT_CHARS` constant. -/
def MAX_EXTRACTED_TEXT_CHARS : Nat := 20000

/-- `ExtractedDocumentText`. -/
structure ExtractedDocumentText where
  text : List Char
  truncated : Bool
deriving DecidableEq, Repr

/-- `truncateText` from `document-parser.service.ts`. -/
def truncateText (value : List Char) (maxChars : Nat) : ExtractedDocumentText :=
  if value.length ≤ maxChars then { text := value, truncated := false }
  else { text := value.take maxChars, truncated := true }

/-- Asset kinds (`AssetKind` in `asset.service.ts`). -/
inductive AssetKind where
  | image
  | document
deriving DecidableEq, Repr

/-- The DOCX media type string. -/
def docxMediaType : String :=
  "application/vnd.openxmlformats-officedocument.wordprocessingml.document"

/-- `extractDocumentText`, dispatching on the asset's kind and media
type. The byte decoding step of each supported branch (UTF-8 decode,
`pdf-parse`, `mammoth`) is an external capability; `decoded` is the text
it produced, to which every branch applies the same normalize-truncate
pipeline. -/
def extractDocumentText (kind : AssetKind) (mediaType : String)
    (decoded : List Char) : Except String ExtractedDocumentText :=
  if kind ≠ AssetKind.document then
    .error "Unsupported asset type for document extraction."
  else if mediaType = "text/plain" then
    .ok (truncateText (normalizeText decoded) MAX_EXTRACTED_TEXT_CHARS)
  else if mediaType = "application/pdf" then
    .ok (truncateText (normalizeText decoded) MAX_EXTRACTED_TEXT_CHARS)
  else if mediaType = docxMediaType then
    .ok (truncateText (normalizeText decoded) MAX_EXTRACTED_TEXT_CHARS)
  else
    .error ("Unsupported document type: " ++ mediaType)

/-- The three media types `extractDocumentText` dispatches to a
supported extraction branch. -/
def isSupportedDocMediaType (mediaType : String) : Bool :=
  mediaType = "text/plain" || mediaType = "application/pdf" || mediaType = docxMediaType

/-! ## Summarize orchestrator social dispatch (`summarize.service.ts`) -/

/-- `detectContentType`, over the outcomes of the hostname allow-list
checks `isTwitterUrl` / `isRedditUrl` and of `new URL(url)` validity. -/
def detectContentType (isTwitter isReddit validUrl : Bool) : String :=
  if isTwitter then "twitter"
  else if isReddit then "reddit"
  else if validUrl then "article"
  else "unknown"

/-- Which platform services are configured. -/
structure SummarizeConfig where
  twitterConfigured : Bool
  redditConfigured : Bool
deriving DecidableEq, Repr

/-- The outcomes of the external fetches `summarize` can issue:
the platform fetches (`getTweet` + `getContentForSummarization`, resp.
`getPost` + `getContentForSummarization`) and the generic link
extraction `fetchSummarizeCoreContent` (the link-preview capability's
`fetchLinkContent`). -/
structure SummarizeEnv where
  twitterFetch : Except String String
  redditFetch : Except String String
  genericFetch : Except String String
deriving Repr

/-- The extraction outcome of `SummarizeService.summarize` for a URL of
the given detected content type: the `contentType` field of the
response, whether the generic link extraction was invoked, and the
extracted content. -/
structure SummarizeExtraction where
  contentType : String
  usedGenericFetch : Bool
  extractedContent : String
deriving DecidableEq, Repr

/-- The `switch (contentType)` extraction step of
`SummarizeService.summarize` (the social cases and the article default):
a configured platform fetch is awaited with no surrounding catch, so its
error propagates; an unconfigured platform falls back to the generic
link extraction; the response's `contentType` is the detected type in
every successful path. -/
def summarizeExtract (contentType : String) (cfg : SummarizeConfig)
    (env : SummarizeEnv) : Except String SummarizeExtraction :=
  if contentType = "twitter" then
    if cfg.twitterConfigured then
      match env.twitterFetch with
      | .ok content => .ok ⟨"twitter", false, content⟩
      | .error e => .error e
    else
      match env.genericFetch with
      | .ok content => .ok ⟨"twitter", true, content⟩
      | .error e => .error e
  else if contentType = "reddit" then
    if cfg.redditConfigured then
      match env.redditFetch with
      | .ok content => .ok ⟨"reddit", false, content⟩
      | .error e => .error e
    else
      match env.genericFetch with
      | .ok content => .ok ⟨"reddit", true, content⟩
      | .error e => .error e
  else
    match env.genericFetch with
    | .ok content => .ok ⟨contentType, true, content⟩
    | .error e => .error e

/-! ## Asset classifier (`asset.service.ts`, `classifyUrlAsAsset`) -/

/-- `UrlKind`. -/
inductive UrlKind where
  | website
  | asset
deriving DecidableEq, Repr

/-- `toLowerCase` restricted to ASCII (the extension literals compared
against are ASCII). -/
def lowerString (s : String) : String :=
  String.mk (s.data.map Char.toLower)

/-- The non-page extension check `isLikelyAssetPathname`, over an
`extname` capability standing for Node's `path.extname`. -/
def isLikelyAssetPathname (extname : String → String) (pathname : String) : Bool :=
  let ext := lowerString (extname pathname)
  if ext = "" then false
  else if ext = ".html" || ext = ".htm" || ext = ".php" || ext = ".asp" || ext = ".aspx" then
    false
  else true

/-- The outcomes of the two network probes of `classifyUrlAsAsset`
(`tryDetectFromHead` and `tryDetectFromRange`); each probe invokes the
fetch capability exactly once and maps every failure to `false`. -/
structure ClassifyNet where
  headDetect : Bool
  rangeDetect : Bool
deriving DecidableEq, Repr

/-- `classifyUrlAsAsset`, returning the classification together with the
number of times the fetch capability was invoked. -/
def classifyUrlAsAsset (extname : String → String) (pathname : String)
    (net : ClassifyNet) : UrlKind × Nat :=
  if isLikelyAssetPathname extname pathname then (UrlKind.asset, 0)
  else if net.headDetect then (UrlKind.asset, 1)
  else if net.rangeDetect then (UrlKind.asset, 2)
  else (UrlKind.website, 2)

/-! ## Enrichment response handling
(`OpenAIProvider.enrich` / `AnthropicProvider.enrich`) -/

/-- The opening curly brace character. -/
def lbrace : Char := Char.ofNat 123

/-- The closing curly brace character. -/
def rbrace : Char := Char.ofNat 125

/-- The prefix of `l` up to and including its last closing brace. -/
def takeThroughLastRbrace (l : List Char) : List Char :=
  (l.reverse.dropWhile (fun c => decide (c ≠ rbrace))).reverse

/-- `text.match(/\{[\s\S]*\})/`-style candidate extraction (the regex is
an opening brace, then anything, greedy, then a closing brace): the
match, when it exists, runs from the first opening brace to the last
closing brace after it. -/
def jsonCandidate (text : List Char) : Option (List Char) :=
  match text.findIdx? (fun c => decide (c = lbrace)) with
  | none => none
  | some i =>
      let tail := text.drop i
      if (tail.drop 1).any (fun c => decide (c = rbrace)) then
        some (takeThroughLastRbrace tail)
      else none

/-- A successfully parsed enrichment JSON object: each field of
interest, absent when missing from the object (a `title` of the empty
string models a present-but-falsy title). -/
structure ParsedEnrichment where
  title : Option String
  description : Option String
  tags : Option (List String)
deriving DecidableEq, Repr

/-- `EnrichmentResult`. -/
structure EnrichmentResult where
  title : String
  description : String
  tags : List String
deriving DecidableEq, Repr

/-- The JSON candidate actually parsed: the match when there is one,
otherwise the literal two-character empty-object string. -/
def enrichCandidate (text : List Char) : List Char :=
  (jsonCandidate text).getD [lbrace, rbrace]

/-- The response-handling tail of `enrich` (identical in the OpenAI and
Anthropic providers), over a `parse` capability standing for
`JSON.parse` (`none` models a thrown parse error): a parse failure
degrades to `{title: 'Untitled', description: '', tags: []}`, and parsed
fields fall back field-wise (`result.title || 'Untitled'`,
`result.description || ''`, `Array.isArray(result.tags) ? ... : []`). -/
def enrichResult (text : List Char)
    (parse : List Char → Option ParsedEnrichment) : EnrichmentResult :=
  match parse (enrichCandidate text) with
  | none => { title := "Untitled", description := "", tags := [] }
  | some r =>
      { title :=
          match r.title with
          | some t => if t = "" then "Untitled" else t
          | none => "Untitled"
        description := r.description.getD ""
        tags := r.tags.getD [] }

/-! ## Ask excerpt truncation (`ask.service.ts`) -/

/-- `occursAt l pat i`: the substring `pat` occurs in `l` at index `i`. -/
def occursAt (l pat : List Char) (i : Nat) : Bool :=
  decide ((l.drop i).take pat.length = pat)

/-- `String.prototype.lastIndexOf` for a non-empty pattern: the largest
start index of an occurrence, `-1` when there is none. -/
def lastIndexOfSub (l pat : List Char) : Int :=
  match ((List.range l.length).filter (occursAt l pat)).getLast? with
  | some i => (i : Int)
  | none => -1

/-- The `lastSentenceEnd` computation of `AskService.truncateContent`:
the largest of the last occurrences of the four sentence-boundary
patterns, `-1` when none occurs. -/
def sentenceBoundary (truncated : List Char) : Int :=
  max (max (lastIndexOfSub truncated ['.', ' '])
           (lastIndexOfSub truncated ['.', '\n']))
      (max (lastIndexOfSub truncated ['!', ' '])
           (lastIndexOfSub truncated ['?', ' ']))

/-- `AskService.truncateContent`: content at most `maxLength` characters
is returned whole; otherwise take the first `maxLength` characters, and
cut at the last sentence boundary when one occurs past half the bound,
else append an ellipsis. (`lastSentenceEnd > maxLength * 0.5` is exact
for integer indices, so it is rendered as `2 * lastSentenceEnd > maxLength`.) -/
def truncateContent (content : List Char) (maxLength : Nat) : List Char :=
  if content.length ≤ maxLength then content
  else
    let truncated := content.take maxLength
    if 2 * sentenceBoundary truncated > (maxLength : Int) then
      truncated.take (sentenceBoundary truncated + 1).toNat
    else truncated ++ ['.', '.', '.']

/-- The excerpt `AskService.ask` passes to answer synthesis for an
item's stored `rawContent` (`truncateContent(fullItem.rawContent, 1500)`). -/
def askExcerpt (rawContent : List Char) : List Char :=
  truncateContent rawContent 1500

/-! ## Helper lemmas -/

/-- `find?` is invariant under permutation when at most one element
satisfies the predicate. -/
theorem find?_eq_of_perm_of_unique {α : Type} (p : α → Bool) {l l' : List α}
    (h : l.Perm l')
    (hu : ∀ a ∈ l, ∀ b ∈ l, p a = true → p b = true → a = b) :
    l.find? p = l'.find? p := by
  cases hfl : l.find? p with
  | none =>
    cases hfl' : l'.find? p with
    | none => rfl
    | some b =>
      rw [List.find?_eq_none] at hfl
      exact absurd (List.find?_some hfl')
        (by simpa using hfl b (h.mem_iff.mpr (List.mem_of_find?_eq_some hfl')))
  | some a =>
    cases hfl' : l'.find? p with
    | none =>
      rw [List.find?_eq_none] at hfl'
      exact absurd (List.find?_some hfl)
        (by simpa using hfl' a (h.mem_iff.mp (List.mem_of_find?_eq_some hfl)))
    | some b =>
      exact congrArg some (hu a (List.mem_of_find?_eq_some hfl)
        b (h.mem_iff.mpr (List.mem_of_find?_eq_some hfl'))
        (List.find?_some hfl) (List.find?_some hfl'))

/-- With ID-distinct rows, at most one element matches a given ID. -/
theorem unique_of_nodup_ids {items : List ContentItem}
    (hnodup : (items.map (fun it => it.id)).Nodup) (id : String) :
    ∀ a ∈ items, ∀ b ∈ items, decide (a.id = id) = true →
      decide (b.id = id) = true → a = b := by
  intro a ha b hb hpa hpb
  have hab : a.id = b.id := by
    simp only [decide_eq_true_eq] at hpa hpb
    rw [hpa, hpb]
  exact List.inj_on_of_nodup_map hnodup ha hb hab

/-- Under ID-distinctness, the JS-`Map` lookup (last match) agrees with
`find?` (first match) on any permutation of the fetched rows. -/
theorem lookupById_eq_find? {items fetched : List ContentItem}
    (hperm : fetched.Perm items)
    (hnodup : (items.map (fun it => it.id)).Nodup) (id : String) :
    lookupById fetched id = items.find? (fun it => decide (it.id = id)) := by
  unfold lookupById
  refine find?_eq_of_perm_of_unique _ (fetched.reverse_perm.trans hperm) ?_
  intro a ha b hb
  exact unique_of_nodup_ids hnodup id a
    (hperm.mem_iff.mp (fetched.reverse_perm.mem_iff.mp ha)) b
    (hperm.mem_iff.mp (fetched.reverse_perm.mem_iff.mp hb))

/-- The assembly loop of `semanticSearch` is the `filterMap` of the
`Map` lookup over the candidate list. -/
theorem semanticSearchAssemble_eq (similarItems : List SimilarItem)
    (items : List ContentItem) :
    semanticSearchAssemble similarItems items =
      similarItems.filterMap
        (fun sim => (lookupById items sim.id).map
          (fun item => withScore (itemToSearchResult item) sim.similarity)) := by
  have key : ∀ (sims : List SimilarItem) (acc : List SearchResult),
      sims.foldl
        (fun results sim =>
          match lookupById items sim.id with
          | some item => results ++ [withScore (itemToSearchResult item) sim.similarity]
          | none => results) acc =
      acc ++ sims.filterMap
        (fun sim => (lookupById items sim.id).map
          (fun item => withScore (itemToSearchResult item) sim.similarity)) := by
    intro sims
    induction sims with
    | nil => intro acc; simp
    | cons sim sims ih =>
      intro acc
      cases hl : lookupById items sim.id with
      | none => simp [List.filterMap_cons, hl, ih]
      | some item => simp [List.filterMap_cons, hl, ih]
  simpa using key similarItems []

/-! ## C1: semantic search preserves similarity rank -/

/-- C1: when the embedding index returns a candidate list and the batch
item-fetch returns the corresponding records in any permutation,
`semanticSearch` returns the fetched items in exactly the
similarity-ranked candidate order, each carrying its candidate's
similarity as its score; a candidate ID absent from the batch-fetch
result is silently omitted and causes no error. -/
theorem semanticSearch_preserves_rank (similarItems : List SimilarItem)
    (items : List ContentItem) (findByIds : List String → List ContentItem)
    (hperm : (findByIds (similarItems.map (fun s => s.id))).Perm items)
    (hnodup : (items.map (fun it => it.id)).Nodup) :
    semanticSearch similarItems findByIds =
      similarItems.filterMap
        (fun sim => (items.find? (fun it => decide (it.id = sim.id))).map
          (fun item => withScore (itemToSearchResult item) sim.similarity)) := by
  unfold semanticSearch
  by_cases hempty : similarItems.isEmpty
  · rw [if_pos hempty]
    rw [List.isEmpty_iff] at hempty
    simp [hempty]
  · rw [if_neg hempty, semanticSearchAssemble_eq]
    exact List.filterMap_congr (fun sim _ => by
      rw [lookupById_eq_find? hperm hnodup])

/-- Witness for C1: index candidates `a` (score 95) then `b` (score 85),
batch fetch returns `b` before `a`; the results come back as `a` then
`b` with their scores. -/
theorem semanticSearch_preserves_rank_witness :
    (((fun _ => [ContentItem.mk "b" "B" "" "article" [] none "",
                 ContentItem.mk "a" "A" "" "article" [] none ""] :
        List String → List ContentItem)
        ([SimilarItem.mk "a" 95, SimilarItem.mk "b" 85].map (fun s => s.id))).Perm
      [ContentItem.mk "a" "A" "" "article" [] none "",
       ContentItem.mk "b" "B" "" "article" [] none ""]) ∧
    (([ContentItem.mk "a" "A" "" "article" [] none "",
       ContentItem.mk "b" "B" "" "article" [] none ""].map (fun it => it.id)).Nodup) ∧
    semanticSearch [SimilarItem.mk "a" 95, SimilarItem.mk "b" 85]
        (fun _ => [ContentItem.mk "b" "B" "" "article" [] none "",
                   ContentItem.mk "a" "A" "" "article" [] none ""]) =
      [SimilarItem.mk "a" 95, SimilarItem.mk "b" 85].filterMap
        (fun sim =>
          (([ContentItem.mk "a" "A" "" "article" [] none "",
             ContentItem.mk "b" "B" "" "article" [] none ""].find?
              (fun it => decide (it.id = sim.id))).map
            (fun item => withScore (itemToSearchResult item) sim.similarity))) :=
  ⟨by decide, by decide,
    semanticSearch_preserves_rank _ _ _ (by decide) (by decide)⟩

/-! ## Hybrid merge characterization -/

/-- The merge fold, characterized: the final state appends the
`seen`-deduplicated suffix. -/
theorem foldl_mergeStep (rs : List SearchResult) :
    ∀ (seen : List String) (merged : List SearchResult),
      rs.foldl mergeStep (seen, merged) =
        (seen ++ (dedupAgainst seen rs).map (fun r => r.id),
         merged ++ dedupAgainst seen rs) := by
  induction rs with
  | nil => intro seen merged; simp [dedupAgainst]
  | cons r rs ih =>
    intro seen merged
    by_cases h : seen.any (fun t => decide (t = r.id))
    · simp only [List.foldl_cons, mergeStep, if_pos h, dedupAgainst]
      exact ih seen merged
    · simp only [List.foldl_cons, mergeStep, if_neg h, dedupAgainst]
      rw [ih (seen ++ [r.id]) (merged ++ [r])]
      simp [List.append_assoc]

/-- Under keyword-side ID-distinctness, deduplication against a fixed
`seen` set is a plain filter. -/
theorem dedupAgainst_eq_filter (rs : List SearchResult)
    (hk : (rs.map (fun r => r.id)).Nodup) :
    ∀ seen, dedupAgainst seen rs =
      rs.filter (fun r => !seen.any (fun t => decide (t = r.id))) := by
  induction rs with
  | nil => intro seen; simp [dedupAgainst]
  | cons r rs ih =>
    intro seen
    simp only [List.map_cons, List.nodup_cons] at hk
    by_cases h : seen.any (fun t => decide (t = r.id))
    · rw [dedupAgainst, if_pos h, List.filter_cons_of_neg (by simp [h]), ih hk.2]
    · rw [dedupAgainst, if_neg h, List.filter_cons_of_pos (by simp [h]), ih hk.2]
      congr 1
      refine List.filter_congr (fun x hx => ?_)
      have hne : ¬(r.id = x.id) := fun hcontr => hk.1 (hcontr ▸ List.mem_map_of_mem _ hx)
      simp [List.any_append, hne, fun hcontr : x.id = r.id => hne hcontr.symm]

/-- The merged list of `hybridMerge`, before truncation: the semantic
results followed by the keyword results whose ID is not a semantic ID. -/
theorem hybridMerge_eq (semanticResults keywordResults : List SearchResult)
    (limit : Nat)
    (hs : (semanticResults.map (fun r => r.id)).Nodup)
    (hk : (keywordResults.map (fun r => r.id)).Nodup) :
    hybridMerge semanticResults keywordResults limit =
      (semanticResults ++
        keywordResults.filter
          (fun r => !(semanticResults.map (fun s => s.id)).any
            (fun t => decide (t = r.id)))).take limit := by
  have h1 : semanticResults.foldl mergeStep ([], []) =
      (semanticResults.map (fun r => r.id), semanticResults) := by
    rw [foldl_mergeStep, dedupAgainst_eq_filter _ hs]
    simp
  simp only [hybridMerge]
  rw [h1, foldl_mergeStep, dedupAgainst_eq_filter _ hk]

/-! ## C2: hybrid merge order, dedup and truncation -/

/-- C2: for ID-distinct semantic and keyword result lists and a positive
limit, the hybrid merge is the semantic results first, in their given
order, followed by exactly the keyword results whose ID did not occur
among the semantic results, in keyword order, truncated to `limit`; the
result has at most `limit` entries and no duplicate IDs. -/
theorem hybridSearch_merge_spec (semanticResults keywordResults : List SearchResult)
    (limit : Nat) (hlim : 0 < limit)
    (hs : (semanticResults.map (fun r => r.id)).Nodup)
    (hk : (keywordResults.map (fun r => r.id)).Nodup) :
    hybridSearch (Except.ok keywordResults) (Except.ok semanticResults) limit =
      Except.ok ((semanticResults ++
        keywordResults.filter
          (fun r => !(semanticResults.map (fun s => s.id)).any
            (fun t => decide (t = r.id)))).take limit) ∧
    (hybridMerge semanticResults keywordResults limit).length ≤ limit ∧
    ((hybridMerge semanticResults keywordResults limit).map
      (fun r => r.id)).Nodup := by
  have hmerge := hybridMerge_eq semanticResults keywordResults limit hs hk
  refine ⟨?_, ?_, ?_⟩
  · simp only [hybridSearch]
    rw [hmerge]
  · rw [hmerge]
    exact List.length_take_le _ _
  · rw [hmerge]
    have hpre : ((semanticResults ++
        keywordResults.filter
          (fun r => !(semanticResults.map (fun s => s.id)).any
            (fun t => decide (t = r.id)))).map (fun r => r.id)).Nodup := by
      rw [List.map_append, List.nodup_append]
      refine ⟨hs, ?_, ?_⟩
      · exact hk.sublist ((List.filter_sublist _).map _)
      · intro x hxs hxk
        rw [List.mem_map] at hxk
        obtain ⟨r, hrmem, hrid⟩ := hxk
        rw [List.mem_filter] at hrmem
        have := hrmem.2
        simp only [Bool.not_eq_eq_eq_not, Bool.not_true, List.any_eq_false,
          decide_eq_true_eq] at this
        exact this x hxs hrid.symm
    rw [List.map_take]
    exact hpre.sublist (List.take_sublist _ _)

/-- Witness for C2: semantic `[a, b]`, keyword `[b, c]`, limit 2 merges
to `[a, b]`. -/
theorem hybridSearch_merge_spec_witness :
    (0 < 2) ∧
    (([SearchResult.mk "a" "" "" "article" [] none "" (some 9),
       SearchResult.mk "b" "" "" "article" [] none "" (some 8)].map
        (fun r => r.id)).Nodup) ∧
    (([SearchResult.mk "b" "" "" "article" [] none "" none,
       SearchResult.mk "c" "" "" "article" [] none "" none].map
        (fun r => r.id)).Nodup) ∧
    (hybridSearch
      (Except.ok [SearchResult.mk "b" "" "" "article" [] none "" none,
                  SearchResult.mk "c" "" "" "article" [] none "" none])
      (Except.ok [SearchResult.mk "a" "" "" "article" [] none "" (some 9),
                  SearchResult.mk "b" "" "" "article" [] none "" (some 8)]) 2 =
      Except.ok (([SearchResult.mk "a" "" "" "article" [] none "" (some 9),
        SearchResult.mk "b" "" "" "article" [] none "" (some 8)] ++
        [SearchResult.mk "b" "" "" "article" [] none "" none,
         SearchResult.mk "c" "" "" "article" [] none "" none].filter
          (fun r => !([SearchResult.mk "a" "" "" "article" [] none "" (some 9),
            SearchResult.mk "b" "" "" "article" [] none "" (some 8)].map
              (fun s => s.id)).any
            (fun t => decide (t = r.id)))).take 2)) :=
  ⟨by decide, by decide, by decide,
    (hybridSearch_merge_spec _ _ 2 (by decide) (by decide) (by decide)).1⟩

/-! ## C7: a semantic-branch failure does not fail hybrid search -/

/-- C7: when the semantic branch of hybrid search fails, `hybridSearch`
still succeeds and returns the merge computed with the semantic list
treated as empty — for ID-distinct keyword results, the keyword results
up to `limit`. -/
theorem hybridSearch_semantic_failure_absorbed (e : String)
    (keywordResults : List SearchResult) (limit : Nat)
    (hk : (keywordResults.map (fun r => r.id)).Nodup) :
    hybridSearch (Except.ok keywordResults) (Except.error e) limit =
      Except.ok (hybridMerge [] keywordResults limit) ∧
    hybridMerge [] keywordResults limit = keywordResults.take limit := by
  constructor
  · rfl
  · rw [hybridMerge_eq [] keywordResults limit (by simp) hk]
    simp

/-- Witness for C7: an embedding failure with keyword results `[a, b]`
and limit 1 yields `[a]`. -/
theorem hybridSearch_semantic_failure_absorbed_witness :
    (([SearchResult.mk "a" "" "" "article" [] none "" none,
       SearchResult.mk "b" "" "" "article" [] none "" none].map
        (fun r => r.id)).Nodup) ∧
    (hybridSearch
      (Except.ok [SearchResult.mk "a" "" "" "article" [] none "" none,
                  SearchResult.mk "b" "" "" "article" [] none "" none])
      (Except.error "embedding unavailable") 1 =
      Except.ok (hybridMerge []
        [SearchResult.mk "a" "" "" "article" [] none "" none,
         SearchResult.mk "b" "" "" "article" [] none "" none] 1) ∧
    hybridMerge []
        [SearchResult.mk "a" "" "" "article" [] none "" none,
         SearchResult.mk "b" "" "" "article" [] none "" none] 1 =
      [SearchResult.mk "a" "" "" "article" [] none "" none,
       SearchResult.mk "b" "" "" "article" [] none "" none].take 1) :=
  ⟨by decide,
    hybridSearch_semantic_failure_absorbed "embedding unavailable" _ 1 (by decide)⟩

/-! ## C10: a keyword-branch failure fails hybrid search -/

/-- C10: the failure absorption in hybrid search is one-sided — a
keyword-branch error propagates out of `hybridSearch` whatever the
semantic branch produced. -/
theorem hybridSearch_keyword_failure_propagates (e : String)
    (semanticOutcome : Except String (List SearchResult)) (limit : Nat) :
    hybridSearch (Except.error e) semanticOutcome limit = Except.error e :=
  rfl

/-! ## C3: citation mapping order -/

/-- Folding `Set.add` over a list realizes first-occurrence dedup of the
elements not already in the accumulator. -/
theorem foldl_insertIfNew (l : List Nat) :
    ∀ acc : List Nat,
      l.foldl insertIfNew acc =
        acc ++ dedupKeepFirst (l.filter (fun n => !acc.any (fun m => decide (m = n)))) := by
  induction l with
  | nil => intro acc; simp [dedupKeepFirst]
  | cons n l ih =>
    intro acc
    by_cases h : acc.any (fun m => decide (m = n))
    · rw [List.foldl_cons, insertIfNew, if_pos h,
        List.filter_cons_of_neg (by simp [h]), ih acc]
    · rw [List.foldl_cons, insertIfNew, if_neg h,
        List.filter_cons_of_pos (by simp [h]), ih (acc ++ [n]), dedupKeepFirst]
      rw [List.append_assoc, List.singleton_append, List.filter_filter]
      refine congrArg (fun t => acc ++ n :: dedupKeepFirst t)
        (List.filter_congr (fun x hx => ?_))
      by_cases hxn : x = n
      · simp [hxn, List.any_append]
      · simp only [List.any_append, hxn]
        simp [hxn]
        exact fun _ hcontr => hxn hcontr.symm

/-- The insertion-ordered cited-number set is the first-occurrence dedup
of the citation scan. -/
theorem citedNumbers_eq_dedupKeepFirst (answer : List Char) :
    citedNumbers answer = dedupKeepFirst (scanCitations answer) := by
  unfold citedNumbers
  rw [foldl_insertIfNew]
  simp

/-- C3 counterexample: three sources and an answer containing the
literal substrings `[1]` and `[3]`, with `[3]` appearing first. The
computed `sourcesUsed` is in first-appearance order, not the ascending
order the claim states. -/
theorem sourcesUsed_not_ascending_counterexample :
    sourcesUsed ("See [3], but also [1].".toList)
        [AnswerSource.mk "s1" "t1" none "e1",
         AnswerSource.mk "s2" "t2" none "e2",
         AnswerSource.mk "s3" "t3" none "e3"] = ["s3", "s1"] ∧
    (["s3", "s1"] : List String) ≠ ["s1", "s3"] := by
  constructor
  · decide
  · decide

/-- C3 amended: `sourcesUsed` is the distinct citation numbers of the
answer in order of first appearance (not ascending numeric order),
restricted to `[1, sources.length]`, each mapped to `sources[n-1].id`. -/
theorem sourcesUsed_first_appearance (answer : List Char)
    (sources : List AnswerSource) :
    sourcesUsed answer sources =
      ((dedupKeepFirst (scanCitations answer)).filter
        (fun n => decide (1 ≤ n) && decide (n ≤ sources.length))).filterMap
        (fun n => (sources[n - 1]?).map (fun s => s.id)) := by
  unfold sourcesUsed
  rw [citedNumbers_eq_dedupKeepFirst]

/-! ## C4: document text extraction bound and truncation flag -/

/-- C4: for a document asset of a supported media type, the extraction
first normalizes the decoded text (whitespace runs collapsed, ends
trimmed) and returns at most 20000 characters, with `truncated` set
exactly when the normalized text exceeds 20000 characters, in which
case the text is the 20000-character normalized prefix; for any other
media type, or a non-document asset, it fails with an error. -/
theorem extractDocumentText_spec (kind : AssetKind) (mediaType : String)
    (decoded : List Char) :
    (kind = AssetKind.document → isSupportedDocMediaType mediaType = true →
      ∃ r, extractDocumentText kind mediaType decoded = .ok r ∧
        r.text = (normalizeText decoded).take MAX_EXTRACTED_TEXT_CHARS ∧
        r.text.length ≤ 20000 ∧
        (r.truncated = true ↔ 20000 < (normalizeText decoded).length)) ∧
    (kind = AssetKind.document → isSupportedDocMediaType mediaType = false →
      extractDocumentText kind mediaType decoded =
        .error ("Unsupported document type: " ++ mediaType)) ∧
    (kind = AssetKind.image →
      extractDocumentText kind mediaType decoded =
        .error "Unsupported asset type for document extraction.") := by
  refine ⟨?_, ?_, ?_⟩
  · intro hkind hmt
    refine ⟨truncateText (normalizeText decoded) MAX_EXTRACTED_TEXT_CHARS, ?_, ?_, ?_, ?_⟩
    · subst hkind
      simp only [isSupportedDocMediaType, Bool.or_eq_true, decide_eq_true_eq] at hmt
      unfold extractDocumentText
      rcases hmt with (h | h) | h <;> simp [h]
    · unfold truncateText
      split
      · rename_i hle
        rw [List.take_of_length_le hle]
      · rfl
    · unfold truncateText
      split
      · rename_i hle
        simpa [MAX_EXTRACTED_TEXT_CHARS] using hle
      · simpa [MAX_EXTRACTED_TEXT_CHARS] using
          List.length_take_le MAX_EXTRACTED_TEXT_CHARS (normalizeText decoded)
    · unfold truncateText
      split
      · rename_i hle
        simp only [MAX_EXTRACTED_TEXT_CHARS] at hle ⊢
        simp
        omega
      · rename_i hgt
        simp only [MAX_EXTRACTED_TEXT_CHARS] at hgt ⊢
        simp
        omega
  · intro hkind hmt
    subst hkind
    simp only [isSupportedDocMediaType, Bool.or_eq_false_iff, decide_eq_false_iff_not] at hmt
    unfold extractDocumentText
    simp [hmt.1.1, hmt.1.2, hmt.2]
  · intro hkind
    subst hkind
    unfold extractDocumentText
    simp

/-- Witness for C4: a plain-text document whose decoded text has runs of
whitespace. -/
theorem extractDocumentText_spec_witness :
    (AssetKind.document = AssetKind.document) ∧
    (isSupportedDocMediaType "text/plain" = true) ∧
    (∃ r, extractDocumentText AssetKind.document "text/plain"
        ("  a \t\n b  c ".toList) = .ok r ∧
      r.text = (normalizeText ("  a \t\n b  c ".toList)).take MAX_EXTRACTED_TEXT_CHARS ∧
      r.text.length ≤ 20000 ∧
      (r.truncated = true ↔ 20000 < (normalizeText ("  a \t\n b  c ".toList)).length)) :=
  ⟨rfl, by decide,
    (extractDocumentText_spec AssetKind.document "text/plain"
      ("  a \t\n b  c ".toList)).1 rfl (by decide)⟩

/-! ## C5: social-source fallback on the unconfigured path only -/

/-- C5 counterexample: a Twitter URL with the Twitter service configured
and a platform fetch that throws. `summarize` propagates the error
instead of falling back to the generic link extraction, so the claimed
fallback-on-throw does not happen. -/
theorem summarize_configured_fetch_error_counterexample :
    summarizeExtract "twitter" (SummarizeConfig.mk true false)
        (SummarizeEnv.mk (Except.error "Failed to fetch tweet: boom")
          (Except.ok "post") (Except.ok "generic content")) =
      Except.error "Failed to fetch tweet: boom" ∧
    summarizeExtract "twitter" (SummarizeConfig.mk true false)
        (SummarizeEnv.mk (Except.error "Failed to fetch tweet: boom")
          (Except.ok "post") (Except.ok "generic content")) ≠
      Except.ok (SummarizeExtraction.mk "twitter" true "generic content") := by
  constructor
  · rfl
  · simp [summarizeExtract]

/-- C5 amended: for a URL recognized as a social platform, `summarize`
falls back to the generic link extraction only when the platform service
is not configured, and on that path the returned `contentType` stays the
original social label; when the platform service is configured and its
fetch throws, the error propagates and no fallback occurs. -/
theorem summarize_social_fallback (cfg : SummarizeConfig) (env : SummarizeEnv)
    (c e : String) :
    (cfg.twitterConfigured = false → env.genericFetch = Except.ok c →
      summarizeExtract "twitter" cfg env =
        Except.ok (SummarizeExtraction.mk "twitter" true c)) ∧
    (cfg.redditConfigured = false → env.genericFetch = Except.ok c →
      summarizeExtract "reddit" cfg env =
        Except.ok (SummarizeExtraction.mk "reddit" true c)) ∧
    (cfg.twitterConfigured = true → env.twitterFetch = Except.error e →
      summarizeExtract "twitter" cfg env = Except.error e) ∧
    (cfg.redditConfigured = true → env.redditFetch = Except.error e →
      summarizeExtract "reddit" cfg env = Except.error e) := by
  refine ⟨?_, ?_, ?_, ?_⟩
  · intro hcfg hfetch
    simp [summarizeExtract, hcfg, hfetch]
  · intro hcfg hfetch
    simp [summarizeExtract, hcfg, hfetch]
  · intro hcfg hfetch
    simp [summarizeExtract, hcfg, hfetch]
  · intro hcfg hfetch
    simp [summarizeExtract, hcfg, hfetch]

/-- Witness for C5 (amended): with Twitter unconfigured, a Twitter URL
is extracted through the generic path and keeps `contentType`
`twitter`. -/
theorem summarize_social_fallback_witness :
    ((SummarizeConfig.mk false false).twitterConfigured = false) ∧
    ((SummarizeEnv.mk (Except.error "unused") (Except.ok "post")
        (Except.ok "generic content")).genericFetch = Except.ok "generic content") ∧
    summarizeExtract "twitter" (SummarizeConfig.mk false false)
        (SummarizeEnv.mk (Except.error "unused") (Except.ok "post")
          (Except.ok "generic content")) =
      Except.ok (SummarizeExtraction.mk "twitter" true "generic content") :=
  ⟨rfl, rfl,
    (summarize_social_fallback (SummarizeConfig.mk false false)
      (SummarizeEnv.mk (Except.error "unused") (Except.ok "post")
        (Except.ok "generic content")) "generic content" "unused").1 rfl rfl⟩

/-! ## C6: extension-classified URLs need no network call -/

/-- C6: a URL whose path has a non-empty extension outside the HTML
family is classified `asset` immediately, with the fetch capability
never invoked, whatever the network probes would have answered. -/
theorem classifyUrlAsAsset_extension_no_network (extname : String → String)
    (pathname : String) (net : ClassifyNet)
    (hne : lowerString (extname pathname) ≠ "")
    (hhtml : lowerString (extname pathname) ∉
      ([".html", ".htm", ".php", ".asp", ".aspx"] : List String)) :
    classifyUrlAsAsset extname pathname net = (UrlKind.asset, 0) := by
  have hlikely : isLikelyAssetPathname extname pathname = true := by
    unfold isLikelyAssetPathname
    simp only [List.mem_cons, List.not_mem_nil, or_false, not_or] at hhtml
    rw [if_neg hne]
    rw [if_neg ?_]
    simp only [Bool.or_eq_true, decide_eq_true_eq]
    push_neg
    exact ⟨⟨⟨⟨hhtml.1, hhtml.2.1⟩, hhtml.2.2.1⟩, hhtml.2.2.2.1⟩, hhtml.2.2.2.2⟩
  unfold classifyUrlAsAsset
  rw [if_pos hlikely]

/-- Witness for C6: `/docs/report.pdf` with extension `.pdf` is an
asset with zero fetches. -/
theorem classifyUrlAsAsset_extension_no_network_witness :
    (lowerString ((fun _ => ".pdf" : String → String) "/docs/report.pdf") ≠ "") ∧
    (lowerString ((fun _ => ".pdf" : String → String) "/docs/report.pdf") ∉
      ([".html", ".htm", ".php", ".asp", ".aspx"] : List String)) ∧
    classifyUrlAsAsset (fun _ => ".pdf") "/docs/report.pdf"
        (ClassifyNet.mk false true) = (UrlKind.asset, 0) :=
  ⟨by decide, by decide,
    classifyUrlAsAsset_extension_no_network (fun _ => ".pdf") "/docs/report.pdf"
      (ClassifyNet.mk false true) (by decide) (by decide)⟩

/-! ## C8: unparseable enrichment responses degrade to defaults -/

/-- C8 counterexample: an unparseable model response makes `enrich`
return the defaults, whose title is the non-empty string `Untitled`
rather than the empty title the claim states. -/
theorem enrich_unparseable_title_counterexample :
    enrichResult ("\x7b oops \x7d".toList) (fun _ => none) =
      EnrichmentResult.mk "Untitled" "" [] ∧
    (EnrichmentResult.mk "Untitled" "" []).title ≠ "" := by
  constructor
  · rfl
  · decide

/-- C8 amended: a model response whose text holds no parseable JSON
object never makes `enrich` fail — it degrades to the default values
title `Untitled`, empty description and empty tags, on both the
parse-throw path and the no-candidate path (where the parsed literal
empty object has no fields). -/
theorem enrich_unparseable_degrades (text : List Char)
    (parse : List Char → Option ParsedEnrichment) :
    (parse (enrichCandidate text) = none →
      enrichResult text parse = EnrichmentResult.mk "Untitled" "" []) ∧
    (jsonCandidate text = none →
      parse [lbrace, rbrace] = some (ParsedEnrichment.mk none none none) →
      enrichResult text parse = EnrichmentResult.mk "Untitled" "" []) := by
  constructor
  · intro h
    unfold enrichResult
    rw [h]
  · intro hcand hparse
    unfold enrichResult enrichCandidate
    rw [hcand]
    simp only [Option.getD_none]
    rw [hparse]
    rfl

/-- Witness for C8 (amended): a brace-wrapped but malformed response on
the parse-throw path. -/
theorem enrich_unparseable_degrades_witness :
    (((fun _ => none : List Char → Option ParsedEnrichment)
        (enrichCandidate ("\x7b not json \x7d".toList))) = none) ∧
    enrichResult ("\x7b not json \x7d".toList)
        (fun _ => none) = EnrichmentResult.mk "Untitled" "" [] :=
  ⟨rfl,
    (enrich_unparseable_degrades ("\x7b not json \x7d".toList)
      (fun _ => none)).1 rfl⟩

/-! ## C9: ask excerpt truncation -/

/-- `lastIndexOf` results are below the scanned length (and `-1` stands
below every length). -/
theorem lastIndexOfSub_lt_length (l pat : List Char) :
    lastIndexOfSub l pat < (l.length : Int) := by
  rcases hgl : ((List.range l.length).filter (occursAt l pat)).getLast? with _ | i
  · simp [lastIndexOfSub, hgl]
    omega
  · have hi : i ∈ (List.range l.length).filter (occursAt l pat) :=
      List.mem_of_mem_getLast? hgl
    rw [List.mem_filter, List.mem_range] at hi
    simp only [lastIndexOfSub, hgl]
    exact_mod_cast hi.1

/-- The sentence boundary lies below the scanned length. -/
theorem sentenceBoundary_lt_length (l : List Char) :
    sentenceBoundary l < (l.length : Int) := by
  unfold sentenceBoundary
  exact max_lt (max_lt (lastIndexOfSub_lt_length l _) (lastIndexOfSub_lt_length l _))
    (max_lt (lastIndexOfSub_lt_length l _) (lastIndexOfSub_lt_length l _))

/-- When no index carries an occurrence, `lastIndexOf` is `-1`. -/
theorem lastIndexOfSub_eq_neg_one {l pat : List Char}
    (h : ∀ i, occursAt l pat i = false) : lastIndexOfSub l pat = -1 := by
  unfold lastIndexOfSub
  rw [List.filter_eq_nil_iff.mpr (fun i _ => by simp [h i])]
  rfl

/-- A two-character pattern whose first character differs from the
replicated character never occurs in a replicated list. -/
theorem occursAt_replicate_ne {n i : Nat} {c p₀ p₁ : Char} (h : p₀ ≠ c) :
    occursAt (List.replicate n c) [p₀, p₁] i = false := by
  unfold occursAt
  simp only [decide_eq_false_iff_not]
  intro heq
  have hp : p₀ ∈ ((List.replicate n c).drop i).take [p₀, p₁].length := by
    rw [heq]
    exact List.mem_cons_self _ _
  have hmem : p₀ ∈ List.replicate n c :=
    ((List.take_sublist _ _).trans (List.drop_sublist _ _)).subset hp
  exact h (List.eq_of_mem_replicate hmem)

/-- No sentence boundary occurs in a replicated non-boundary character. -/
theorem sentenceBoundary_replicate (n : Nat) :
    sentenceBoundary (List.replicate n 'a') = -1 := by
  unfold sentenceBoundary
  rw [lastIndexOfSub_eq_neg_one (fun i => occursAt_replicate_ne (by decide)),
    lastIndexOfSub_eq_neg_one (fun i => occursAt_replicate_ne (by decide)),
    lastIndexOfSub_eq_neg_one (fun i => occursAt_replicate_ne (by decide)),
    lastIndexOfSub_eq_neg_one (fun i => occursAt_replicate_ne (by decide))]
  rfl

/-- C9 counterexample: a stored text of 1501 characters with no sentence
boundary. The excerpt passed to answer synthesis is the 1500-character
cut plus an appended ellipsis — 1503 characters, exceeding the
1500-character bound the claim states, and not a truncation of the
stored text. -/
theorem askExcerpt_exceeds_bound_counterexample :
    (askExcerpt (List.replicate 1501 'a')).length = 1503 ∧
    ¬((1503 : Nat) ≤ 1500) := by
  constructor
  · have htake : (List.replicate 1501 'a' : List Char).take 1500 =
        List.replicate 1500 'a' := by
      rw [List.take_replicate]
      norm_num
    have hsb : sentenceBoundary ((List.replicate 1501 'a' : List Char).take 1500) = -1 := by
      rw [htake]
      exact sentenceBoundary_replicate 1500
    unfold askExcerpt
    simp only [truncateContent, Nat.cast_ofNat]
    rw [if_neg (by rw [List.length_replicate]; omega),
      if_neg (by rw [hsb]; decide), htake]
    rw [List.length_append, List.length_replicate]
    rfl
  · decide

/-- C9 amended: the excerpt equals the full stored text when it fits in
1500 characters; otherwise, when a sentence boundary occurs in the first
1500 characters past half the bound, the excerpt is the stored text cut
at that boundary (a prefix of at most 1500 characters); and when no such
boundary occurs, the excerpt is the first 1500 characters with an
ellipsis appended, 1503 characters in total. -/
theorem askExcerpt_spec (content : List Char) :
    (content.length ≤ 1500 → askExcerpt content = content) ∧
    (1500 < content.length →
      (2 * sentenceBoundary (content.take 1500) > (1500 : Int) →
        askExcerpt content =
          content.take ((sentenceBoundary (content.take 1500)).toNat + 1) ∧
        (askExcerpt content).length ≤ 1500) ∧
      (¬(2 * sentenceBoundary (content.take 1500) > (1500 : Int)) →
        askExcerpt content = content.take 1500 ++ ['.', '.', '.'] ∧
        (askExcerpt content).length = 1503)) := by
  refine ⟨?_, ?_⟩
  · intro hle
    unfold askExcerpt
    simp only [truncateContent]
    rw [if_pos hle]
  · intro hgt
    have hlen1500 : (content.take 1500).length = 1500 := by
      rw [List.length_take]
      omega
    have hsblt : sentenceBoundary (content.take 1500) < (1500 : Int) := by
      have h := sentenceBoundary_lt_length (content.take 1500)
      rw [hlen1500] at h
      exact_mod_cast h
    constructor
    · intro hcond
      have hres : askExcerpt content =
          content.take ((sentenceBoundary (content.take 1500)).toNat + 1) := by
        unfold askExcerpt
        simp only [truncateContent, Nat.cast_ofNat]
        rw [if_neg (by omega), if_pos hcond, List.take_take]
        congr 1
        omega
      refine ⟨hres, ?_⟩
      rw [hres, List.length_take]
      omega
    · intro hcond
      have hres : askExcerpt content = content.take 1500 ++ ['.', '.', '.'] := by
        unfold askExcerpt
        simp only [truncateContent, Nat.cast_ofNat]
        rw [if_neg (by omega), if_neg hcond]
      refine ⟨hres, ?_⟩
      rw [hres]
      simp only [List.length_append, List.length_take, List.length_cons,
        List.length_nil]
      omega

/-- Witness for C9 (amended): a short stored text is passed whole. -/
theorem askExcerpt_spec_witness :
    (("A short note.".toList : List Char).length ≤ 1500) ∧
    askExcerpt ("A short note.".toList) = "A short note.".toList :=
  ⟨by decide, (askExcerpt_spec ("A short note.".toList)).1 (by decide)⟩

end AIScrapbook
